import Mathlib

/-!
Verification of the CodeUnify code-compilation tool (`src/codeunify.py`).

The Python source is shallowly embedded: file paths are modelled as POSIX
path strings, the filesystem walk (`Path.rglob`) is an input list of
entries, file reading is an input oracle returning the outcome of the
`read_text` attempts, and the bytes written to the output document are
returned as a string.  Python stdlib routines used by the source
(`fnmatch.fnmatch`, `str.lower`, `str.strip`, `pathlib.Path.suffix`, ...)
are not part of the repository; they are modelled from the spec's
description of their behaviour, restricted to ASCII where Python is
Unicode-aware.
-/

namespace CodeUnify

/-- Membership test of one character against the body of a glob character
class: members are parsed greedily, `a-b` between two characters denotes a
code-point range, a trailing or unpaired `-` is a literal. -/
def matchMembers : List Char → Char → Bool
  | [], _ => false
  | a :: '-' :: b :: rest, c => (a ≤ c && c ≤ b) || matchMembers rest c
  | a :: rest, c => (a == c) || matchMembers rest c

/-- Scan up to the closing `]` of a character class, returning the class
body and the remaining pattern, or `none` if the class is unterminated. -/
def scanClass : List Char → Option (List Char × List Char)
  | [] => none
  | ']' :: rest => some ([], rest)
  | c :: rest =>
    match scanClass rest with
    | none => none
    | some (stuff, r) => some (c :: stuff, r)

/-- Body of a character class (the part after `[` and after an optional
`!`): a `]` in first position is a literal member; otherwise scan to the
closing `]`. -/
def parseClassBody : List Char → Option (List Char × List Char)
  | ']' :: p2 => (scanClass p2).map (fun pr => (']' :: pr.1, pr.2))
  | other => scanClass other

/-- Parse a character class after `[`: an optional leading `!` negates.
Returns (negated, members, rest of pattern); `none` when unterminated (a
lone `[` is then treated as a literal character). -/
def parseClass : List Char → Option (Bool × List Char × List Char)
  | '!' :: rest => (parseClassBody rest).map (fun pr => (true, pr.1, pr.2))
  | p => (parseClassBody p).map (fun pr => (false, pr.1, pr.2))

/-- Fuel-driven core of the glob matcher.  Every recursive call strictly
decreases `pattern.length + name.length`, so the fuel used by `globMatch`
(one more than that sum) is never exhausted; the `0` case is unreachable. -/
def globMatchAux : Nat → List Char → List Char → Bool
  | 0, _, _ => false
  | fuel+1, p, s =>
    match p with
    | [] => s.isEmpty
    | '*' :: p2 =>
      globMatchAux fuel p2 s ||
        (match s with
         | [] => false
         | _ :: s2 => globMatchAux fuel ('*' :: p2) s2)
    | '?' :: p2 =>
      (match s with
       | [] => false
       | _ :: s2 => globMatchAux fuel p2 s2)
    | '[' :: p2 =>
      (match parseClass p2 with
       | some (neg, members, rest) =>
         (match s with
          | [] => false
          | c :: s2 => (matchMembers members c != neg) && globMatchAux fuel rest s2)
       | none =>
         (match s with
          | [] => false
          | c :: s2 => (c == '[') && globMatchAux fuel p2 s2))
    | a :: p2 =>
      (match s with
       | [] => false
       | c :: s2 => (a == c) && globMatchAux fuel p2 s2)

/-- Match a whole name against a whole glob pattern: `*` matches any run
of characters (not path-separator aware), `?` one character, `[...]` a
character class with ranges and `[!...]` negation. -/
def globMatch (p s : List Char) : Bool :=
  globMatchAux (p.length + s.length + 1) p s

/-- Modelled from the spec: Python's `fnmatch.fnmatch(name, pattern)`
(stdlib, not part of `src/`) — flat shell-glob matching of the whole
name; on POSIX the case normalisation is the identity. -/
def fnmatch (name pattern : String) : Bool :=
  globMatch pattern.data name.data

/-- Modelled from the spec: Python's `str.lower`, ASCII case mapping. -/
def strLower (s : String) : String :=
  ⟨s.data.map Char.toLower⟩

/-- Modelled from the spec: Python's `str.strip()` with no argument —
remove leading and trailing whitespace. -/
def pyStrip (s : String) : String :=
  ⟨((s.data.dropWhile Char.isWhitespace).reverse.dropWhile Char.isWhitespace).reverse⟩

/-- Modelled from the spec: Python's `str.startswith`. -/
def pyStartsWith (s pre : String) : Bool :=
  pre.data.isPrefixOf s.data

/-- Modelled from the spec: Python's `str.endswith`. -/
def pyEndsWith (s suf : String) : Bool :=
  suf.data.isSuffixOf s.data

/-- The segments of a POSIX path string, as in `pathlib.PurePath.parts`
for a normalised relative path: split on `/`. -/
def pathParts (s : String) : List String :=
  (s.data.splitOn '/').map (fun l => ⟨l⟩)

/-- Modelled from the spec: `pathlib.Path.suffix` — the extension of the
final path component: the part from the last dot on, provided that dot is
neither the first nor the last character of the name; otherwise empty. -/
def pathSuffix (p : String) : String :=
  let name := (pathParts p).getLastD ""
  let l := name.data
  match l.reverse.indexOf? '.' with
  | none => ""
  | some j =>
    let i := l.length - 1 - j
    if 0 < i ∧ i < l.length - 1 then ⟨l.drop i⟩ else ""

/-- `file_path.relative_to(self.root_dir)` for a file strictly under the
root: strip the `root + "/"` prefix; `none` models the `ValueError`
raised when the path is not under the root. -/
def relativeTo (root p : String) : Option String :=
  if (root ++ "/").data.isPrefixOf p.data then
    some ⟨p.data.drop (root ++ "/").data.length⟩
  else
    none

/-- The root-relative POSIX path of a file, defaulting to `""` when the
file is not under the root (that case never survives `isIgnored`). -/
def relPosix (root p : String) : String :=
  (relativeTo root p).getD ""

/-- `ensure_leading_dot`: `'.' + ext.lower().lstrip('.')`. -/
def ensure_leading_dot (ext : String) : String :=
  "." ++ ⟨(strLower ext).data.dropWhile (· = '.')⟩

/-- `CodeCompiler.DEFAULT_EXCLUDE_PATTERNS`, transcribed verbatim. -/
def DEFAULT_EXCLUDE_PATTERNS : List String := [
  "*/.git/*", ".git",
  "*/.svn/*", ".svn",
  "*/.hg/*", ".hg",
  "*/.bzr/*", ".bzr",
  "*/__pycache__/*", "__pycache__",
  "*/.pytest_cache/*", ".pytest_cache",
  ".coverage", "*/.coverage.*",
  "*/.mypy_cache/*", ".mypy_cache",
  "*/.tox/*", ".tox",
  "*/venv/*", "venv",
  "*/.venv/*", ".venv",
  "*/env/*", "env",
  "*/.env/*", ".env",
  "*/virtualenv/*", "virtualenv",
  "*/dist/*", "dist",
  "*/build/*", "build",
  "*.egg-info", "*/.eggs/*",
  "*/node_modules/*", "node_modules",
  "*/bower_components/*", "bower_components",
  "*/coverage/*",
  "*/.nyc_output/*", ".nyc_output",
  "*.log", "*/logs/*", "*/log/*",
  "*/target/*", "target",
  "*/.gradle/*", ".gradle",
  "*/out/*", "out",
  "*/bin/*", "bin",
  "*/obj/*", "obj",
  "*/Debug/*", "Debug",
  "*/Release/*", "Release",
  "*/x64/*", "x64",
  "*/x86/*", "x86",
  "*/CMakeFiles/*", "CMakeFiles", "*.cmake.in", "CMakeCache.txt",
  "*/.idea/*", ".idea",
  "*/.vscode/*", ".vscode",
  "*/.vs/*", ".vs",
  "*/.settings/*", ".settings",
  ".project", ".classpath", "*.iml",
  "*/output/*", "output",
  "*/generated/*", "generated",
  "*/tmp/*", "tmp",
  "*/temp/*", "temp",
  "*/docs/_build/*", "docs/_build",
  "*/site/*", "site",
  "*/public/*", "public",
  "*/_site/*", "_site",
  ".DS_Store", "*/.DS_Store",
  "Thumbs.db", "*/Thumbs.db"]

/-- Parsing of the custom ignore file's lines (`_load_ignore_rules`):
`[line.strip() for line in f if line.strip() and not line.startswith('#')]`.
Note the `startswith` test is applied to the raw, untrimmed line. -/
def parseCustomIgnoreLines (lines : List String) : List String :=
  lines.filterMap (fun line =>
    if pyStrip line ≠ "" ∧ pyStartsWith line "#" = false then some (pyStrip line) else none)

/-- The custom ignore patterns obtained from the ignore file: `none`
models a file that is missing or whose read raised (the exception is
caught and `custom_ignore_patterns` stays `[]`). -/
def loadCustomIgnoreFile : Option (List String) → List String
  | none => []
  | some lines => parseCustomIgnoreLines lines

/-- `self.user_extensions`: `{ensure_leading_dot(ext) for ext in
extensions} if extensions else None` — an absent or empty input set gives
`None` (auto-detect); set contents are modelled as a deduplicated list. -/
def mkUserExtensions : Option (List String) → Option (List String)
  | none => none
  | some exts => if exts.isEmpty then none else some ((exts.map ensure_leading_dot).dedup)

/-- The state of a `CodeCompiler` after `__init__` and
`_load_ignore_rules`: the resolved root, the default plus extra fnmatch
patterns, the custom ignore patterns, the optional compiled gitignore
matcher (an opaque predicate on absolute paths, supplied by the
third-party `gitignore_parser`), and the optional normalised extension
set. -/
structure Compiler where
  rootDir : String
  allExcludePatterns : List String
  customIgnorePatterns : List String
  gitignoreMatches : Option (String → Bool)
  userExtensions : Option (List String)

/-- Construct a `Compiler` the way `__init__` does from its inputs. -/
def mkCompiler (rootDir : String) (extensions : Option (List String))
    (extraExcludePatterns : List String) (customIgnoreLines : Option (List String))
    (gitignoreMatches : Option (String → Bool)) : Compiler :=
  { rootDir := rootDir
    allExcludePatterns := DEFAULT_EXCLUDE_PATTERNS ++ extraExcludePatterns
    customIgnorePatterns := loadCustomIgnoreFile customIgnoreLines
    gitignoreMatches := gitignoreMatches
    userExtensions := mkUserExtensions extensions }

/-- `CodeCompiler._is_excluded_by_defaults`: the relative path matches a
default/extra pattern either as the full POSIX string or on any single
path segment. -/
def isExcludedByDefaults (pats : List String) (relPath : String) : Bool :=
  pats.any (fun pattern =>
    fnmatch relPath pattern || (pathParts relPath).any (fun part => fnmatch part pattern))

/-- `CodeCompiler._is_ignored`: defensively ignore paths not under the
root; otherwise default/extra patterns, then custom ignore patterns
(full relative path only), then the gitignore matcher on the absolute
path, short-circuiting on the first hit. -/
def isIgnored (c : Compiler) (filePath : String) : Bool :=
  match relativeTo c.rootDir filePath with
  | none => true
  | some relPath =>
    if isExcludedByDefaults c.allExcludePatterns relPath then true
    else if c.customIgnorePatterns.any (fun pattern => fnmatch relPath pattern) then true
    else
      match c.gitignoreMatches with
      | some m => m filePath
      | none => false

/-- One entry yielded by the filesystem walk (`root_dir.rglob('*')`):
an absolute path and whether it is a regular file. -/
structure Entry where
  path : String
  isFile : Bool
deriving DecidableEq

/-- The candidate files: regular files from the walk that survive
`_is_ignored`. -/
def candidateFiles (c : Compiler) (walk : List Entry) : List String :=
  walk.filterMap (fun e => if e.isFile && !(isIgnored c e.path) then some e.path else none)

/-- `CodeCompiler._collect_and_filter_files`: resolve the target
extension set (the user's, or the lowercase suffixes auto-detected from
candidates having one) and keep candidates whose lowercased suffix is in
it; an empty auto-detected set short-circuits to an empty result. -/
def collectAndFilterFiles (c : Compiler) (walk : List Entry) : List String × List String :=
  let cand := candidateFiles c walk
  match c.userExtensions with
  | some target => (cand.filter (fun f => target.contains (strLower (pathSuffix f))), target)
  | none =>
    let detected := (cand.filterMap (fun f =>
      if pathSuffix f ≠ "" then some (strLower (pathSuffix f)) else none)).dedup
    if detected.isEmpty then ([], [])
    else (cand.filter (fun f => detected.contains (strLower (pathSuffix f))), detected)

/-- `HEADER_SEPARATOR = "=" * 80`. -/
def HEADER_SEPARATOR : String := ⟨List.replicate 80 '='⟩

/-- `FILE_SEPARATOR = "-" * 80`. -/
def FILE_SEPARATOR : String := ⟨List.replicate 80 '-'⟩

/-- The outcome of reading one source file, as observed through the
`try`/`except` ladder in `compile`: UTF-8 success, UTF-8 decode failure
then Latin-1 success, both attempts failing, an `OSError`, or any other
exception. -/
inductive ReadResult where
  | utf8Ok (content : String)
  | latin1Ok (content : String)
  | bothFail (errMsg : String)
  | osError (errMsg : String)
  | otherError (errMsg : String)
deriving DecidableEq

/-- The per-file banner written before a file's content. -/
def fileBanner (relPathStr : String) : String :=
  "\n" ++ HEADER_SEPARATOR ++ "\n" ++ "File: " ++ relPathStr ++ "\n" ++
    FILE_SEPARATOR ++ "\n\n"

/-- What the read `try`/`except` ladder writes for one file, the new
value of the local variable `content` (`none` = the branch did not assign
it), and whether the error counter is incremented. -/
def readBody : ReadResult → String × Option String × Bool
  | .utf8Ok content => (content, some content, false)
  | .latin1Ok content => (content, some content, false)
  | .bothFail e => ("ERROR: Unable to read file (tried utf-8, latin-1): " ++ e ++ "\n", none, true)
  | .osError e => ("ERROR: OS error reading file: " ++ e ++ "\n", none, true)
  | .otherError e => ("ERROR: Unexpected error reading file: " ++ e ++ "\n", none, true)

/-- The separating-newline step `if content and not
content.endswith('\n'): outfile.write('\n')`.  The argument is the
current value of the local variable `content`; `none` models it being
unbound, in which case the statement raises `UnboundLocalError`. -/
def sepAfter : Option String → Option String
  | none => none
  | some c => some (if c ≠ "" ∧ pyEndsWith c "\n" = false then "\n" else "")

/-- The whole body of one iteration of the per-file loop in `compile`:
compute the relative path (`none` = `ValueError` escapes), write the
banner, run the read ladder, then the separating-newline step (`none` =
`UnboundLocalError` escapes).  Returns the text written for this file,
the value of `content` after the iteration, and whether the file was
counted as an error. -/
def contentAfter (prev : Option String) : Option String → Option String
  | some cnew => some cnew
  | none => prev

def fileSection (read : String → ReadResult) (root : String) (prev : Option String)
    (f : String) : Option (String × Option String × Bool) :=
  match relativeTo root f with
  | none => none
  | some rel =>
    match sepAfter (contentAfter prev (readBody (read f)).2.1) with
    | none => none
    | some sep =>
      some (fileBanner rel ++ (readBody (read f)).1 ++ sep,
        contentAfter prev (readBody (read f)).2.1, (readBody (read f)).2.2)

/-- The loop state of `compile`: the two counters, the Python local
variable `content` (`none` = still unbound), and the bytes written so
far. -/
structure LoopState where
  processed : Nat
  errorCount : Nat
  content : Option String
  out : String

/-- One iteration of the per-file loop; `Except.error` models an
exception escaping to the outer `except` of `compile`. -/
def processFile (read : String → ReadResult) (root : String) (st : LoopState)
    (f : String) : Except Unit LoopState :=
  match fileSection read root st.content f with
  | none => .error ()
  | some (txt, newContent, isErr) =>
    .ok { processed := st.processed + (if isErr then 0 else 1),
          errorCount := st.errorCount + (if isErr then 1 else 0),
          content := newContent,
          out := st.out ++ txt }

/-- Code-point lexicographic comparison of character lists: at the first
difference the smaller code point wins, a prefix precedes its
extensions. -/
def charsLe : List Char → List Char → Bool
  | [], _ => true
  | _ :: _, [] => false
  | a :: as, b :: bs =>
    if a < b then true
    else if b < a then false
    else charsLe as bs

/-- How Python compares two strings (and `pathlib` two POSIX paths):
code-point lexicographic order.  `pathLe_iff_le` below shows this agrees
with Lean's `≤` on `String`. -/
def pathLe (a b : String) : Bool :=
  charsLe a.data b.data

/-- `list.sort()` on paths / `sorted(...)` on strings: lexicographic
(code-point) order on the path string. -/
def pySorted (l : List String) : List String :=
  l.insertionSort (fun a b => pathLe a b = true)

/-- The document header written by `compile`. -/
def headerText (c : Compiler) (finalExts : List String) (timestamp : String) : String :=
  HEADER_SEPARATOR ++ "\n" ++ "Project Code Compilation\n" ++
  "Generated on: " ++ timestamp ++ "\n" ++
  "Source Directory: " ++ c.rootDir ++ "\n" ++
  (if finalExts.isEmpty then "File Extensions Included: None specified or detected\n"
   else "File Extensions Included: " ++ String.intercalate ", " (pySorted finalExts) ++ "\n") ++
  HEADER_SEPARATOR ++ "\n\n"

/-- The document footer written by `compile`; the error line is omitted
when the error count is zero. -/
def footerText (processed errors : Nat) : String :=
  "\n\n" ++ HEADER_SEPARATOR ++ "\n" ++ "Compilation Summary:\n" ++
  "Total files processed: " ++ toString processed ++ "\n" ++
  (if errors ≠ 0 then "Files with read errors: " ++ toString errors ++ "\n" else "") ++
  HEADER_SEPARATOR ++ "\n"

/-- What one run of `CodeCompiler.compile` produces: the returned flag,
the bytes of the output document (`none` when the run failed and the
partially written file is not specified), and the two counters reported
in the logs and the footer. -/
structure CompileResult where
  success : Bool
  doc : Option String
  processedCount : Nat
  errorCount : Nat
deriving DecidableEq

/-- The part of `compile` that runs after `_collect_and_filter_files`:
return `False` on an empty selection, otherwise sort, write header, run
the per-file loop and write the footer; an exception escaping the loop is
caught by the outer `except` and yields `False`. -/
def compileFrom (c : Compiler) (read : String → ReadResult) (timestamp : String)
    (files : List String) (finalExts : List String) : CompileResult :=
  if files.isEmpty then
    { success := false, doc := none, processedCount := 0, errorCount := 0 }
  else
    match (pySorted files).foldlM (processFile read c.rootDir)
        { processed := 0, errorCount := 0, content := none,
          out := headerText c finalExts timestamp } with
    | .error _ => { success := false, doc := none, processedCount := 0, errorCount := 0 }
    | .ok st =>
      { success := true,
        doc := some (st.out ++ footerText st.processed st.errorCount),
        processedCount := st.processed,
        errorCount := st.errorCount }

/-- `CodeCompiler.compile`, end to end. -/
def compile (c : Compiler) (walk : List Entry) (read : String → ReadResult)
    (timestamp : String) : CompileResult :=
  compileFrom c read timestamp (collectAndFilterFiles c walk).1 (collectAndFilterFiles c walk).2

/-- The texts of the per-file sections, in processing order, threading
the `content` variable exactly as the loop does; `none` when some
iteration raises. -/
def sectionList (read : String → ReadResult) (root : String) :
    Option String → List String → Option (List String)
  | _, [] => some []
  | prev, f :: fs =>
    match fileSection read root prev f with
    | none => none
    | some (txt, newContent, _) =>
      match sectionList read root newContent fs with
      | none => none
      | some rest => some (txt :: rest)

/-- The exit code `main` returns from the compilation result:
`0 if success else 1`. -/
def mainExitCode (success : Bool) : Nat :=
  if success then 0 else 1

/-! ## Helper lemmas -/

theorem strData_append (s t : String) : (s ++ t).data = s.data ++ t.data := by
  cases s
  cases t
  rfl

theorem str_eq_empty_iff (s : String) : s = "" ↔ s.data = [] := by
  cases s with
  | mk l =>
    constructor
    · intro h
      rw [h]
    · intro h
      show String.mk l = ""
      rw [show l = [] from h]

theorem Char_toLower_toLower (c : Char) : c.toLower.toLower = c.toLower := by
  unfold Char.toLower
  by_cases h : c.toNat ≥ 65 ∧ c.toNat ≤ 90
  · rw [if_pos h]
    have hv : Nat.isValidChar (c.toNat + 32) := Or.inl (by omega)
    have ht : (Char.ofNat (c.toNat + 32)).toNat = c.toNat + 32 := by
      unfold Char.ofNat
      rw [dif_pos hv]
      simp [Char.ofNatAux, Char.toNat, UInt32.toNat, BitVec.toNat_ofNatLt]
    rw [if_neg (by rw [ht]; omega)]
  · rw [if_neg h, if_neg h]

theorem strLower_eq_empty_iff (s : String) : strLower s = "" ↔ s = "" := by
  rw [str_eq_empty_iff, str_eq_empty_iff]
  unfold strLower
  simp

theorem strLower_ensure_leading_dot (e : String) :
    strLower (ensure_leading_dot e) = ensure_leading_dot e := by
  unfold ensure_leading_dot strLower
  have hd : ∀ l : List Char, ("." ++ (⟨l⟩ : String)).data = '.' :: l := by
    intro l
    rw [strData_append]
    rfl
  rw [hd]
  congr 1
  rw [List.map_cons]
  rw [show ('.').toLower = '.' by decide]
  rw [List.dropWhile_map, List.map_map]
  rw [show (Char.toLower ∘ Char.toLower) = Char.toLower from funext Char_toLower_toLower]
  rw [← List.dropWhile_map]
  rfl

theorem relativeTo_some {root p rel : String} (h : relativeTo root p = some rel) :
    p.data = (root ++ "/").data ++ rel.data := by
  unfold relativeTo at h
  by_cases hpre : ((root ++ "/").data.isPrefixOf p.data) = true
  · rw [if_pos hpre] at h
    injection h with h2
    obtain ⟨t, ht⟩ := List.isPrefixOf_iff_prefix.mp hpre
    subst h2
    simp only
    rw [← ht, List.drop_left]
  · rw [if_neg hpre] at h
    exact absurd h (by simp)

theorem perm_isEmpty {α : Type} {l₁ l₂ : List α} (h : l₁.Perm l₂) :
    l₁.isEmpty = l₂.isEmpty := by
  cases l₁ with
  | nil =>
    rw [h.nil_eq]
  | cons a l =>
    cases l₂ with
    | nil => exact absurd h.symm.nil_eq (by simp)
    | cons b m => rfl

theorem perm_contains {l₁ l₂ : List String} (h : l₁.Perm l₂) (a : String) :
    l₁.contains a = l₂.contains a := by
  rw [Bool.eq_iff_iff]
  constructor
  · intro hc
    exact List.elem_iff.mpr (h.mem_iff.mp (List.elem_iff.mp hc))
  · intro hc
    exact List.elem_iff.mpr (h.mem_iff.mpr (List.elem_iff.mp hc))

theorem contains_iff_mem (l : List String) (a : String) :
    l.contains a = true ↔ a ∈ l :=
  List.elem_iff

theorem charsLe_iff_not_lex : ∀ x y : List Char, charsLe x y = true ↔ ¬ List.Lex (· < ·) y x := by
  intro x
  induction x with
  | nil =>
    intro y
    apply iff_of_true
    · rfl
    · exact List.Lex.not_nil_right _ _
  | cons a as ih =>
    intro y
    cases y with
    | nil =>
      apply iff_of_false
      · simp [charsLe]
      · intro h
        exact h List.Lex.nil
    | cons b bs =>
      rcases lt_trichotomy a b with hab | hab | hab
      · apply iff_of_true
        · simp [charsLe, hab]
        · intro h
          cases h with
          | rel h2 => exact absurd h2 (lt_asymm hab)
          | cons h2 => exact absurd hab (lt_irrefl _)
      · subst hab
        have h1 : charsLe (a :: as) (a :: bs) = charsLe as bs := by
          simp [charsLe]
        rw [h1, List.Lex.cons_iff]
        exact ih bs
      · apply iff_of_false
        · simp [charsLe, hab, lt_asymm hab]
        · intro h
          exact h (List.Lex.rel hab)

theorem pathLe_iff_le (a b : String) : pathLe a b = true ↔ a ≤ b := by
  rw [show (a ≤ b) ↔ ¬ b < a from not_lt.symm, String.lt_iff_toList_lt]
  exact charsLe_iff_not_lex a.data b.data

instance : IsTotal String (fun a b => pathLe a b = true) := ⟨fun a b => by
  rcases le_total a b with h | h
  · exact Or.inl ((pathLe_iff_le a b).mpr h)
  · exact Or.inr ((pathLe_iff_le b a).mpr h)⟩

instance : IsTrans String (fun a b => pathLe a b = true) := ⟨fun a b c hab hbc =>
  (pathLe_iff_le a c).mpr
    (le_trans ((pathLe_iff_le a b).mp hab) ((pathLe_iff_le b c).mp hbc))⟩

instance : IsAntisymm String (fun a b => pathLe a b = true) := ⟨fun a b hab hba =>
  le_antisymm ((pathLe_iff_le a b).mp hab) ((pathLe_iff_le b a).mp hba)⟩

theorem pySorted_eq_of_perm {l₁ l₂ : List String} (h : l₁.Perm l₂) :
    pySorted l₁ = pySorted l₂ :=
  List.eq_of_perm_of_sorted
    ((List.perm_insertionSort _ l₁).trans (h.trans (List.perm_insertionSort _ l₂).symm))
    (List.sorted_insertionSort _ l₁) (List.sorted_insertionSort _ l₂)

theorem stringJoin_foldl (l : List String) (a : String) :
    l.foldl (· ++ ·) a = a ++ String.join l := by
  induction l generalizing a with
  | nil => simp [String.join]
  | cons x xs ih =>
    rw [List.foldl_cons, ih (a ++ x)]
    have hj : String.join (x :: xs) = x ++ String.join xs := by
      show List.foldl (· ++ ·) "" (x :: xs) = x ++ String.join xs
      rw [List.foldl_cons, ih ("" ++ x), String.empty_append]
    rw [hj, String.append_assoc]

theorem lex_append_left_iff {p x y : List Char} :
    List.Lex (· < ·) (p ++ x) (p ++ y) ↔ List.Lex (· < ·) x y := by
  induction p with
  | nil => exact Iff.rfl
  | cons c cs ih => simpa [List.Lex.cons_iff] using ih

theorem mk_le_mk_append_iff (p x y : List Char) :
    (⟨p ++ x⟩ : String) ≤ ⟨p ++ y⟩ ↔ (⟨x⟩ : String) ≤ (⟨y⟩ : String) := by
  rw [String.le_iff_toList_le, String.le_iff_toList_le]
  show (p ++ x : List Char) ≤ p ++ y ↔ x ≤ y
  rw [← not_lt, ← not_lt]
  exact not_congr lex_append_left_iff

/-! ## Claim theorems -/

/-- C9: whenever zero files survive ignore and extension filtering,
`compile` returns success = false (as a value, not an exception — the
model is a total function and this is the early `return False`), the
document is not produced, and `main` maps the flag to exit code 1. -/
theorem empty_selection_nonfatal (c : Compiler) (walk : List Entry)
    (read : String → ReadResult) (ts : String)
    (h : (collectAndFilterFiles c walk).1 = []) :
    (compile c walk read ts).success = false ∧
    (compile c walk read ts).doc = none ∧
    mainExitCode (compile c walk read ts).success = 1 := by
  unfold compile compileFrom
  rw [h]
  simp [mainExitCode]

/-- C9 witness: a run over a walk containing only an ignored file selects
nothing and yields success = false, no document, exit code 1. -/
theorem empty_selection_nonfatal_witness :
    (compile (mkCompiler "/r" none [] none none) [⟨"/r/x.log", true⟩]
        (fun _ => ReadResult.utf8Ok "") "T").success = false ∧
    (compile (mkCompiler "/r" none [] none none) [⟨"/r/x.log", true⟩]
        (fun _ => ReadResult.utf8Ok "") "T").doc = none ∧
    mainExitCode (compile (mkCompiler "/r" none [] none none) [⟨"/r/x.log", true⟩]
        (fun _ => ReadResult.utf8Ok "") "T").success = 1 :=
  empty_selection_nonfatal (mkCompiler "/r" none [] none none) [⟨"/r/x.log", true⟩]
    (fun _ => ReadResult.utf8Ok "") "T" (by decide)

/-- C3: the exclusion predicate returns true exactly when the path is not
under the root (defensive exclusion), or one of the three rule sources
matches: default/extra patterns (dual full-path/segment matching), then
custom ignore patterns (full relative path), then the gitignore matcher
applied to the absolute path and only when present. -/
theorem isIgnored_characterisation (c : Compiler) (p : String) :
    isIgnored c p = true ↔
      relativeTo c.rootDir p = none ∨
      ∃ rel, relativeTo c.rootDir p = some rel ∧
        (isExcludedByDefaults c.allExcludePatterns rel = true ∨
         c.customIgnorePatterns.any (fun pattern => fnmatch rel pattern) = true ∨
         ∃ m, c.gitignoreMatches = some m ∧ m p = true) := by
  unfold isIgnored
  rcases hrel : relativeTo c.rootDir p with _ | rel
  · simp
  · simp only [hrel]
    rcases hg : c.gitignoreMatches with _ | m <;>
      by_cases hd : isExcludedByDefaults c.allExcludePatterns rel = true <;>
      by_cases hc : (c.customIgnorePatterns.any (fun pattern => fnmatch rel pattern)) = true <;>
      simp only [Bool.not_eq_true, List.any_eq_true, List.any_eq_false] at hc <;>
      simp [hd, hg, List.any_eq_true]

/-- C2 counterexample: with the custom ignore pattern `secrets` loaded
from the ignore file, the file `secrets/key.txt` is NOT excluded, even
though the path segment `secrets` matches the pattern standalone — the
dual PatternMatcher contract is not applied to custom-ignore patterns. -/
theorem custom_pattern_no_segment_matching :
    isIgnored (mkCompiler "/r" none [] (some ["secrets"]) none) "/r/secrets/key.txt" = false ∧
    (mkCompiler "/r" none [] (some ["secrets"]) none).customIgnorePatterns = ["secrets"] ∧
    (pathParts "secrets/key.txt").any (fun part => fnmatch part "secrets") = true ∧
    isExcludedByDefaults (mkCompiler "/r" none [] (some ["secrets"]) none).allExcludePatterns
      "secrets/key.txt" = false := by
  decide

/-- C2 amended: for a file under the root that no default/extra pattern
matches and with no gitignore matcher, exclusion by custom-ignore
patterns is decided by matching the full root-relative POSIX path only;
path segments are not tested against custom patterns (unlike
default/extra patterns). -/
theorem custom_patterns_full_path_only (c : Compiler) (p rel : String)
    (h1 : relativeTo c.rootDir p = some rel)
    (h2 : isExcludedByDefaults c.allExcludePatterns rel = false)
    (h3 : c.gitignoreMatches = none) :
    isIgnored c p = c.customIgnorePatterns.any (fun pattern => fnmatch rel pattern) := by
  unfold isIgnored
  rw [h1]
  by_cases hc : (c.customIgnorePatterns.any (fun pattern => fnmatch rel pattern)) = true <;>
    simp [h2, h3, hc]

/-- C2 witness for the amended claim: at the counterexample input the
exclusion test equals the full-path-only custom match, which is false. -/
theorem custom_patterns_full_path_only_witness :
    isIgnored (mkCompiler "/r" none [] (some ["secrets"]) none) "/r/secrets/key.txt" =
      (mkCompiler "/r" none [] (some ["secrets"]) none).customIgnorePatterns.any
        (fun pattern => fnmatch "secrets/key.txt" pattern) :=
  custom_patterns_full_path_only (mkCompiler "/r" none [] (some ["secrets"]) none)
    "/r/secrets/key.txt" "secrets/key.txt" (by decide) (by decide) rfl

/-- C6 counterexample: the line `"  # indented"` (whitespace before `#`)
trims to a string starting with `#` and is nonblank, yet it is not
skipped — it becomes the pattern `"# indented"`. -/
theorem indented_comment_becomes_pattern :
    parseCustomIgnoreLines ["  # indented"] = ["# indented"] ∧
    pyStartsWith (pyStrip "  # indented") "#" = true ∧
    pyStrip "  # indented" ≠ "" := by
  decide

/-- C6 amended: a line is skipped iff its trimmed form is blank or the
RAW (untrimmed) line starts with `#`; every kept line contributes its
trimmed form as one pattern, in file order.  An unreadable ignore file is
non-fatal and contributes zero patterns. -/
theorem custom_ignore_line_handling (lines : List String) :
    parseCustomIgnoreLines lines =
      (lines.filter (fun l => (pyStrip l != "") && !(pyStartsWith l "#"))).map pyStrip ∧
    loadCustomIgnoreFile none = [] := by
  refine ⟨?_, rfl⟩
  induction lines with
  | nil => rfl
  | cons l ls ih =>
    unfold parseCustomIgnoreLines at ih ⊢
    rw [List.filterMap_cons, List.filter_cons]
    by_cases h : pyStrip l ≠ "" ∧ pyStartsWith l "#" = false
    · have hb : ((pyStrip l != "") && !(pyStartsWith l "#")) = true := by
        simp [bne_iff_ne, h.1, h.2]
      rw [if_pos h, hb]
      simp [ih]
    · have hb : ((pyStrip l != "") && !(pyStartsWith l "#")) = false := by
        rw [not_and_or] at h
        rcases h with h | h <;> simp at h <;> simp [h]
      rw [if_neg h, hb]
      simp [ih]

set_option maxRecDepth 100000 in
/-- C5 counterexample: a run over one file whose content is empty — the
document contains NO inserted newline after the (empty) content: the
bytes are exactly header, banner and footer, which differs from the
document the claim requires (one inserted newline). -/
theorem empty_content_gets_no_newline :
    (compile (mkCompiler "/r" none [] none none) [⟨"/r/a.py", true⟩]
        (fun _ => ReadResult.utf8Ok "") "T").doc =
      some (headerText (mkCompiler "/r" none [] none none) [".py"] "T" ++
        fileBanner "a.py" ++ footerText 1 0) ∧
    headerText (mkCompiler "/r" none [] none none) [".py"] "T" ++
        fileBanner "a.py" ++ footerText 1 0 ≠
      headerText (mkCompiler "/r" none [] none none) [".py"] "T" ++
        fileBanner "a.py" ++ "\n" ++ footerText 1 0 := by
  decide

/-- C5 amended: for a successfully read file (either encoding), the
emitted section is the banner, the content, then exactly one inserted
newline iff the content is nonempty and does not already end with a
newline; empty content gets no separator newline. -/
theorem section_newline_insertion (read : String → ReadResult) (root : String)
    (prev : Option String) (f rel content : String)
    (hrel : relativeTo root f = some rel)
    (hread : read f = ReadResult.utf8Ok content ∨ read f = ReadResult.latin1Ok content) :
    fileSection read root prev f =
      some (fileBanner rel ++ content ++
        (if content ≠ "" ∧ pyEndsWith content "\n" = false then "\n" else ""),
        some content, false) := by
  rcases hread with h | h <;>
    unfold fileSection <;>
    rw [hrel, h] <;>
    rfl

/-- C5 witness for the amended claim: a file whose content is `"x"` (no
trailing newline) gets exactly the banner, the content and the inserted
separator given by the newline rule. -/
theorem section_newline_insertion_witness :
    fileSection (fun _ => ReadResult.utf8Ok "x") "/r" none "/r/a.py" =
      some (fileBanner "a.py" ++ "x" ++
        (if "x" ≠ "" ∧ pyEndsWith "x" "\n" = false then "\n" else ""),
        some "x", false) :=
  section_newline_insertion (fun _ => ReadResult.utf8Ok "x") "/r" none "/r/a.py" "a.py" "x"
    (by decide) (Or.inl rfl)

set_option maxRecDepth 100000 in
/-- C1: the recovery from a failed read does NOT hold when the failing
file is the first one processed.  With a single selected file whose read
raises an `OSError`, `compile` returns success = false (the unbound
`content` variable raises at the separator step and the blanket `except`
catches it); when the failing file comes after a successful one, the run
recovers as the claim describes (success = true, one error counted). -/
theorem first_file_read_error_fails_run :
    (compile (mkCompiler "/r" none [] none none) [⟨"/r/y.dat", true⟩]
        (fun _ => ReadResult.osError "Permission denied") "T").success = false ∧
    (compile (mkCompiler "/r" none [] none none) [⟨"/r/y.dat", true⟩]
        (fun _ => ReadResult.osError "Permission denied") "T").doc = none ∧
    (compile (mkCompiler "/r" none [] none none)
        [⟨"/r/y.dat", true⟩, ⟨"/r/a.dat", true⟩]
        (fun p => if p = "/r/a.dat" then ReadResult.utf8Ok "hello\n"
                  else ReadResult.osError "Permission denied") "T").success = true ∧
    (compile (mkCompiler "/r" none [] none none)
        [⟨"/r/y.dat", true⟩, ⟨"/r/a.dat", true⟩]
        (fun p => if p = "/r/a.dat" then ReadResult.utf8Ok "hello\n"
                  else ReadResult.osError "Permission denied") "T").errorCount = 1 ∧
    (compile (mkCompiler "/r" none [] none none)
        [⟨"/r/y.dat", true⟩, ⟨"/r/a.dat", true⟩]
        (fun p => if p = "/r/a.dat" then ReadResult.utf8Ok "hello\n"
                  else ReadResult.osError "Permission denied") "T").processedCount = 1 := by
  decide

theorem strLower_strLower (s : String) : strLower (strLower s) = strLower s := by
  unfold strLower
  congr 1
  rw [List.map_map]
  exact congrFun (congrArg List.map (funext Char_toLower_toLower)) _

theorem collectAndFilterFiles_user (c : Compiler) (walk : List Entry)
    (exts : List String) (h : c.userExtensions = some exts) :
    collectAndFilterFiles c walk =
      ((candidateFiles c walk).filter
        (fun f => exts.contains (strLower (pathSuffix f))), exts) := by
  unfold collectAndFilterFiles
  rw [h]

theorem collectAndFilterFiles_auto (c : Compiler) (walk : List Entry)
    (h : c.userExtensions = none) :
    collectAndFilterFiles c walk =
      (if (((candidateFiles c walk).filterMap (fun f =>
            if pathSuffix f ≠ "" then some (strLower (pathSuffix f)) else none)).dedup).isEmpty
       then ([], [])
       else ((candidateFiles c walk).filter (fun f =>
          (((candidateFiles c walk).filterMap (fun g =>
            if pathSuffix g ≠ "" then some (strLower (pathSuffix g)) else none)).dedup).contains
            (strLower (pathSuffix f))),
          ((candidateFiles c walk).filterMap (fun f =>
            if pathSuffix f ≠ "" then some (strLower (pathSuffix f)) else none)).dedup)) := by
  unfold collectAndFilterFiles
  rw [h]

/-- C8: an explicit extension set is normalised by `ensure_leading_dot`
(leading dot, ASCII lowercasing — so the normalised entries start with
`.` and are fixed by lowercasing), it is returned unchanged as the
resolved set, and a candidate file appears in the selection iff its
lowercased suffix is a member of the normalised set. -/
theorem explicit_extensions_filter (c : Compiler) (walk : List Entry)
    (exts : List String) (h : c.userExtensions = some exts)
    (l : List String) (hl : l ≠ []) (f raw : String) :
    (collectAndFilterFiles c walk).2 = exts ∧
    (f ∈ (collectAndFilterFiles c walk).1 ↔
      f ∈ candidateFiles c walk ∧ exts.contains (strLower (pathSuffix f)) = true) ∧
    mkUserExtensions (some l) = some ((l.map ensure_leading_dot).dedup) ∧
    pyStartsWith (ensure_leading_dot raw) "." = true ∧
    strLower (ensure_leading_dot raw) = ensure_leading_dot raw := by
  rw [collectAndFilterFiles_user c walk exts h]
  refine ⟨rfl, List.mem_filter, ?_, ?_, strLower_ensure_leading_dot raw⟩
  · show (if l.isEmpty = true then none
        else some ((l.map ensure_leading_dot).dedup)) = some ((l.map ensure_leading_dot).dedup)
    rw [if_neg]
    simp [List.isEmpty_iff, hl]
  · unfold pyStartsWith ensure_leading_dot
    rw [strData_append]
    simp [List.isPrefixOf]

/-- C8 witness: with explicit extensions `{"PY", ".txt"}` normalised to
`{".py", ".txt"}`, the file `b.PY` is selected iff its lowercased suffix
is in the set, and the normalisation facts hold at `"PY"`. -/
theorem explicit_extensions_filter_witness :
    (collectAndFilterFiles (mkCompiler "/r" (some ["PY", ".txt"]) [] none none)
        [⟨"/r/b.PY", true⟩]).2 = [".py", ".txt"] ∧
    ("/r/b.PY" ∈ (collectAndFilterFiles (mkCompiler "/r" (some ["PY", ".txt"]) [] none none)
        [⟨"/r/b.PY", true⟩]).1 ↔
      "/r/b.PY" ∈ candidateFiles (mkCompiler "/r" (some ["PY", ".txt"]) [] none none)
        [⟨"/r/b.PY", true⟩] ∧
      [".py", ".txt"].contains (strLower (pathSuffix "/r/b.PY")) = true) ∧
    mkUserExtensions (some ["PY", ".txt"]) =
      some ((["PY", ".txt"].map ensure_leading_dot).dedup) ∧
    pyStartsWith (ensure_leading_dot "PY") "." = true ∧
    strLower (ensure_leading_dot "PY") = ensure_leading_dot "PY" :=
  explicit_extensions_filter (mkCompiler "/r" (some ["PY", ".txt"]) [] none none)
    [⟨"/r/b.PY", true⟩] [".py", ".txt"] (by decide) ["PY", ".txt"] (by decide) "/r/b.PY" "PY"

/-- C7: in auto-detect mode the resolved extension set is exactly the
set of lowercase suffixes of the candidate (non-ignored) files that have
one; no file lacking a suffix is ever selected; the resolved set also
equals the set of lowercase suffixes of the actually selected files; and
an empty derived set yields the empty "nothing to do" result. -/
theorem autodetect_extensions (c : Compiler) (walk : List Entry)
    (h : c.userExtensions = none) (e f : String) :
    ((collectAndFilterFiles c walk).2.contains e =
      (candidateFiles c walk).any
        (fun g => (pathSuffix g != "") && (strLower (pathSuffix g) == e))) ∧
    (f ∈ (collectAndFilterFiles c walk).1 → pathSuffix f ≠ "") ∧
    ((collectAndFilterFiles c walk).2.contains e =
      (collectAndFilterFiles c walk).1.any (fun g => strLower (pathSuffix g) == e)) ∧
    ((collectAndFilterFiles c walk).2 = [] → (collectAndFilterFiles c walk).1 = []) := by
  rw [collectAndFilterFiles_auto c walk h]
  by_cases hdet : ((((candidateFiles c walk).filterMap (fun g =>
      if pathSuffix g ≠ "" then some (strLower (pathSuffix g)) else none)).dedup).isEmpty = true)
  · rw [if_pos hdet]
    have hnil : ((candidateFiles c walk).filterMap (fun g =>
        if pathSuffix g ≠ "" then some (strLower (pathSuffix g)) else none)) = [] := by
      rw [List.isEmpty_iff, List.dedup_eq_nil] at hdet
      exact hdet
    have hsuf : ∀ g ∈ candidateFiles c walk, pathSuffix g = "" := by
      intro g hg
      have := List.filterMap_eq_nil_iff.mp hnil g hg
      by_cases hs : pathSuffix g ≠ ""
      · rw [if_pos hs] at this
        exact absurd this (by simp)
      · simpa using hs
    refine ⟨?_, ?_, rfl, fun _ => rfl⟩
    · rw [show (([] : List String).contains e) = false from rfl]
      symm
      rw [List.any_eq_false]
      intro g hg
      simp [hsuf g hg]
    · intro hf
      exact absurd hf (by simp)
  · rw [if_neg hdet]
    have hmem : ∀ x : String,
        x ∈ (((candidateFiles c walk).filterMap (fun g =>
          if pathSuffix g ≠ "" then some (strLower (pathSuffix g)) else none)).dedup) ↔
        ∃ g ∈ candidateFiles c walk, pathSuffix g ≠ "" ∧ strLower (pathSuffix g) = x := by
      intro x
      rw [List.mem_dedup, List.mem_filterMap]
      constructor
      · rintro ⟨g, hg, hgx⟩
        by_cases hs : pathSuffix g ≠ ""
        · rw [if_pos hs] at hgx
          exact ⟨g, hg, hs, by injection hgx⟩
        · rw [if_neg hs] at hgx
          exact absurd hgx (by simp)
      · rintro ⟨g, hg, hs, hgx⟩
        exact ⟨g, hg, by rw [if_pos hs, hgx]⟩
    have hsel : ∀ x : String,
        x ∈ ((candidateFiles c walk).filter (fun g =>
          ((((candidateFiles c walk).filterMap (fun g2 =>
            if pathSuffix g2 ≠ "" then some (strLower (pathSuffix g2)) else none)).dedup).contains
            (strLower (pathSuffix g))))) ↔
        x ∈ candidateFiles c walk ∧
          strLower (pathSuffix x) ∈ (((candidateFiles c walk).filterMap (fun g2 =>
            if pathSuffix g2 ≠ "" then some (strLower (pathSuffix g2)) else none)).dedup) := by
      intro x
      rw [List.mem_filter, contains_iff_mem]
    refine ⟨?_, ?_, ?_, ?_⟩
    · rw [Bool.eq_iff_iff, contains_iff_mem, hmem e, List.any_eq_true]
      constructor
      · rintro ⟨g, hg, hs, hgx⟩
        exact ⟨g, hg, by simp [bne_iff_ne, hs, hgx]⟩
      · rintro ⟨g, hg, hb⟩
        simp only [Bool.and_eq_true, bne_iff_ne, beq_iff_eq] at hb
        exact ⟨g, hg, hb.1, hb.2⟩
    · intro hf
      obtain ⟨hfc, hfd⟩ := (hsel f).mp hf
      obtain ⟨g, hg, hs, hgx⟩ := (hmem _).mp hfd
      intro hcon
      rw [hcon] at hgx
      exact hs ((strLower_eq_empty_iff _).mp hgx)
    · rw [Bool.eq_iff_iff, contains_iff_mem, hmem e, List.any_eq_true]
      constructor
      · rintro ⟨g, hg, hs, hgx⟩
        refine ⟨g, ?_, by simp [hgx]⟩
        exact (hsel g).mpr ⟨hg, (hmem _).mpr ⟨g, hg, hs, rfl⟩⟩
      · rintro ⟨g, hg, hb⟩
        simp only [beq_iff_eq] at hb
        obtain ⟨hgc, hgd⟩ := (hsel g).mp hg
        obtain ⟨g2, hg2, hs2, hgx2⟩ := (hmem _).mp hgd
        refine ⟨g2, hg2, hs2, ?_⟩
        rw [hgx2, hb]
    · intro hcon
      rw [List.isEmpty_iff] at hdet
      exact absurd hcon hdet

/-- C7 witness: a walk with `Makefile` (no suffix), `a.py` and `b.PY`:
the detected set is exactly `{".py"}`, `Makefile` is never selected, the
reported set equals the suffixes of the selected files, and emptiness
propagates. -/
theorem autodetect_extensions_witness :
    ((collectAndFilterFiles (mkCompiler "/r" none [] none none)
        [⟨"/r/Makefile", true⟩, ⟨"/r/a.py", true⟩, ⟨"/r/b.PY", true⟩]).2.contains ".py" =
      (candidateFiles (mkCompiler "/r" none [] none none)
        [⟨"/r/Makefile", true⟩, ⟨"/r/a.py", true⟩, ⟨"/r/b.PY", true⟩]).any
        (fun g => (pathSuffix g != "") && (strLower (pathSuffix g) == ".py"))) ∧
    ("/r/Makefile" ∈ (collectAndFilterFiles (mkCompiler "/r" none [] none none)
        [⟨"/r/Makefile", true⟩, ⟨"/r/a.py", true⟩, ⟨"/r/b.PY", true⟩]).1 →
      pathSuffix "/r/Makefile" ≠ "") ∧
    ((collectAndFilterFiles (mkCompiler "/r" none [] none none)
        [⟨"/r/Makefile", true⟩, ⟨"/r/a.py", true⟩, ⟨"/r/b.PY", true⟩]).2.contains ".py" =
      (collectAndFilterFiles (mkCompiler "/r" none [] none none)
        [⟨"/r/Makefile", true⟩, ⟨"/r/a.py", true⟩, ⟨"/r/b.PY", true⟩]).1.any
        (fun g => strLower (pathSuffix g) == ".py")) ∧
    ((collectAndFilterFiles (mkCompiler "/r" none [] none none)
        [⟨"/r/Makefile", true⟩, ⟨"/r/a.py", true⟩, ⟨"/r/b.PY", true⟩]).2 = [] →
      (collectAndFilterFiles (mkCompiler "/r" none [] none none)
        [⟨"/r/Makefile", true⟩, ⟨"/r/a.py", true⟩, ⟨"/r/b.PY", true⟩]).1 = []) :=
  autodetect_extensions (mkCompiler "/r" none [] none none)
    [⟨"/r/Makefile", true⟩, ⟨"/r/a.py", true⟩, ⟨"/r/b.PY", true⟩] rfl ".py" "/r/Makefile"

theorem mem_candidate_not_ignored (c : Compiler) (walk : List Entry) (f : String)
    (hf : f ∈ candidateFiles c walk) : isIgnored c f = false := by
  unfold candidateFiles at hf
  rw [List.mem_filterMap] at hf
  obtain ⟨e, he, hif⟩ := hf
  by_cases hcond : (e.isFile && !(isIgnored c e.path)) = true
  · rw [if_pos hcond] at hif
    injection hif with h2
    subst h2
    simp only [Bool.and_eq_true, Bool.not_eq_true'] at hcond
    exact hcond.2
  · rw [if_neg hcond] at hif
    exact absurd hif (by simp)

theorem not_ignored_exists_rel (c : Compiler) (f : String)
    (h : isIgnored c f = false) : ∃ rel, relativeTo c.rootDir f = some rel := by
  unfold isIgnored at h
  rcases hrel : relativeTo c.rootDir f with _ | rel
  · rw [hrel] at h
    simp at h
  · exact ⟨rel, rfl⟩

theorem mem_collect_mem_candidate (c : Compiler) (walk : List Entry) (f : String)
    (hf : f ∈ (collectAndFilterFiles c walk).1) : f ∈ candidateFiles c walk := by
  rcases hu : c.userExtensions with _ | exts
  · rw [collectAndFilterFiles_auto c walk hu] at hf
    split at hf
    · exact absurd hf (by simp)
    · exact (List.mem_filter.mp hf).1
  · rw [collectAndFilterFiles_user c walk exts hu] at hf
    exact (List.mem_filter.mp hf).1

theorem relPosix_le_of_le (root a b : String)
    (ha : ∃ ra, relativeTo root a = some ra)
    (hb : ∃ rb, relativeTo root b = some rb)
    (hab : a ≤ b) : relPosix root a ≤ relPosix root b := by
  obtain ⟨ra, hra⟩ := ha
  obtain ⟨rb, hrb⟩ := hb
  have h1 := relativeTo_some hra
  have h2 := relativeTo_some hrb
  rw [relPosix, hra, relPosix, hrb]
  show ra ≤ rb
  have ha2 : a = (⟨(root ++ "/").data ++ ra.data⟩ : String) := congrArg String.mk h1
  have hb2 : b = (⟨(root ++ "/").data ++ rb.data⟩ : String) := congrArg String.mk h2
  have h3 : (⟨(root ++ "/").data ++ ra.data⟩ : String) ≤ ⟨(root ++ "/").data ++ rb.data⟩ := by
    rw [← ha2, ← hb2]
    exact hab
  exact (mk_le_mk_append_iff (root ++ "/").data ra.data rb.data).mp h3

theorem pySorted_sorted_le (l : List String) :
    (pySorted l).Sorted (fun a b : String => a ≤ b) := by
  have h := List.sorted_insertionSort (fun a b : String => pathLe a b = true) l
  exact h.imp (fun hab => (pathLe_iff_le _ _).mp hab)

theorem sections_sorted_by_relpath (c : Compiler) (walk : List Entry) :
    (pySorted (collectAndFilterFiles c walk).1).Pairwise
      (fun a b => relPosix c.rootDir a ≤ relPosix c.rootDir b) := by
  have hs := pySorted_sorted_le (collectAndFilterFiles c walk).1
  refine List.Pairwise.imp_of_mem ?_ hs
  intro a b ha hb hab
  have ha2 : a ∈ (collectAndFilterFiles c walk).1 := (List.mem_insertionSort _).mp ha
  have hb2 : b ∈ (collectAndFilterFiles c walk).1 := (List.mem_insertionSort _).mp hb
  exact relPosix_le_of_le c.rootDir a b
    (not_ignored_exists_rel c a (mem_candidate_not_ignored c walk a
      (mem_collect_mem_candidate c walk a ha2)))
    (not_ignored_exists_rel c b (mem_candidate_not_ignored c walk b
      (mem_collect_mem_candidate c walk b hb2)))
    hab

theorem collect_perm (c : Compiler) {w₁ w₂ : List Entry} (h : w₁.Perm w₂) :
    ((collectAndFilterFiles c w₁).1.Perm (collectAndFilterFiles c w₂).1) ∧
    ((collectAndFilterFiles c w₁).2.Perm (collectAndFilterFiles c w₂).2) := by
  have hcand : (candidateFiles c w₁).Perm (candidateFiles c w₂) := h.filterMap _
  rcases hu : c.userExtensions with _ | exts
  · rw [collectAndFilterFiles_auto c w₁ hu, collectAndFilterFiles_auto c w₂ hu]
    have hdetp : ((((candidateFiles c w₁).filterMap (fun g =>
        if pathSuffix g ≠ "" then some (strLower (pathSuffix g)) else none)).dedup).Perm
        (((candidateFiles c w₂).filterMap (fun g =>
          if pathSuffix g ≠ "" then some (strLower (pathSuffix g)) else none)).dedup)) :=
      (hcand.filterMap _).dedup
    have hie := perm_isEmpty hdetp
    by_cases hd : ((((candidateFiles c w₁).filterMap (fun g =>
        if pathSuffix g ≠ "" then some (strLower (pathSuffix g)) else none)).dedup).isEmpty = true)
    · rw [if_pos hd, if_pos (hie ▸ hd)]
      exact ⟨List.Perm.refl _, List.Perm.refl _⟩
    · rw [if_neg hd, if_neg (hie ▸ hd)]
      refine ⟨?_, hdetp⟩
      have hpred : (fun f => ((((candidateFiles c w₁).filterMap (fun g2 =>
          if pathSuffix g2 ≠ "" then some (strLower (pathSuffix g2)) else none)).dedup).contains
            (strLower (pathSuffix f)))) =
          (fun f => ((((candidateFiles c w₂).filterMap (fun g2 =>
            if pathSuffix g2 ≠ "" then some (strLower (pathSuffix g2)) else none)).dedup).contains
              (strLower (pathSuffix f)))) :=
        funext (fun f => perm_contains hdetp _)
      rw [hpred]
      exact hcand.filter _
  · rw [collectAndFilterFiles_user c w₁ exts hu, collectAndFilterFiles_user c w₂ exts hu]
    exact ⟨hcand.filter _, List.Perm.refl _⟩

theorem headerText_perm (c : Compiler) {e₁ e₂ : List String} (h : e₁.Perm e₂) (ts : String) :
    headerText c e₁ ts = headerText c e₂ ts := by
  unfold headerText
  rw [perm_isEmpty h, pySorted_eq_of_perm h]

theorem compileFrom_congr (c : Compiler) (read : String → ReadResult) (ts : String)
    {f₁ f₂ e₁ e₂ : List String} (hf : f₁.Perm f₂) (he : e₁.Perm e₂) :
    compileFrom c read ts f₁ e₁ = compileFrom c read ts f₂ e₂ := by
  unfold compileFrom
  rw [perm_isEmpty hf, pySorted_eq_of_perm hf, headerText_perm c he ts]

/-- C4: the compilation result — the document bytes included — does not
depend on the order in which the filesystem walk enumerates entries (for
any fixed timestamp two runs over permuted walks of the unchanged tree
are byte-identical), and the per-file sections are processed in
lexicographic order of root-relative POSIX path. -/
theorem compile_deterministic_and_sorted (c : Compiler) (read : String → ReadResult)
    (ts : String) (walk₁ walk₂ : List Entry) (hperm : walk₁.Perm walk₂) :
    compile c walk₁ read ts = compile c walk₂ read ts ∧
    (pySorted (collectAndFilterFiles c walk₁).1).Pairwise
      (fun a b => relPosix c.rootDir a ≤ relPosix c.rootDir b) := by
  constructor
  · unfold compile
    obtain ⟨h1, h2⟩ := collect_perm c hperm
    exact compileFrom_congr c read ts h1 h2
  · exact sections_sorted_by_relpath c walk₁

/-- C4 witness: two opposite enumerations of the same three-file tree
produce identical compilation results, and the processing order is
sorted by relative path. -/
theorem compile_deterministic_and_sorted_witness :
    compile (mkCompiler "/r" none [] none none)
        [⟨"/r/b.py", true⟩, ⟨"/r/a.py", true⟩, ⟨"/r/sub", false⟩, ⟨"/r/sub/c.py", true⟩]
        (fun _ => ReadResult.utf8Ok "y\n") "T" =
      compile (mkCompiler "/r" none [] none none)
        [⟨"/r/sub/c.py", true⟩, ⟨"/r/sub", false⟩, ⟨"/r/a.py", true⟩, ⟨"/r/b.py", true⟩]
        (fun _ => ReadResult.utf8Ok "y\n") "T" ∧
    (pySorted (collectAndFilterFiles (mkCompiler "/r" none [] none none)
        [⟨"/r/b.py", true⟩, ⟨"/r/a.py", true⟩, ⟨"/r/sub", false⟩, ⟨"/r/sub/c.py", true⟩]).1).Pairwise
      (fun a b => relPosix (mkCompiler "/r" none [] none none).rootDir a ≤
        relPosix (mkCompiler "/r" none [] none none).rootDir b) :=
  compile_deterministic_and_sorted (mkCompiler "/r" none [] none none)
    (fun _ => ReadResult.utf8Ok "y\n") "T"
    [⟨"/r/b.py", true⟩, ⟨"/r/a.py", true⟩, ⟨"/r/sub", false⟩, ⟨"/r/sub/c.py", true⟩]
    [⟨"/r/sub/c.py", true⟩, ⟨"/r/sub", false⟩, ⟨"/r/a.py", true⟩, ⟨"/r/b.py", true⟩]
    (by decide)

theorem fileSection_some {read : String → ReadResult} {root : String} {prev : Option String}
    {f txt : String} {nc : Option String} {isErr : Bool}
    (h : fileSection read root prev f = some (txt, nc, isErr)) :
    ∃ rel sep, relativeTo root f = some rel ∧
      txt = fileBanner rel ++ (readBody (read f)).1 ++ sep := by
  unfold fileSection at h
  split at h
  · exact absurd h (by simp)
  · next rel hrel =>
    split at h
    · exact absurd h (by simp)
    · next sep hsep =>
      injection h with h2
      refine ⟨rel, sep, hrel, ?_⟩
      rw [show txt = fileBanner rel ++ (readBody (read f)).1 ++ sep from (congrArg Prod.fst h2).symm]

theorem sectionList_spec (read : String → ReadResult) (root : String) :
    ∀ (fs : List String) (prev : Option String) (secs : List String),
      sectionList read root prev fs = some secs →
      secs.length = fs.length ∧
      ∀ i, i < fs.length →
        pyStartsWith (secs.getD i "") (fileBanner (relPosix root (fs.getD i ""))) = true := by
  intro fs
  induction fs with
  | nil =>
    intro prev secs h
    unfold sectionList at h
    injection h with h2
    subst h2
    exact ⟨rfl, fun i hi => absurd hi (by simp)⟩
  | cons f fs ih =>
    intro prev secs h
    unfold sectionList at h
    split at h
    · exact absurd h (by simp)
    · next txt nc isErr hfs =>
      split at h
      · exact absurd h (by simp)
      · next rest hrest =>
        injection h with h2
        subst h2
        obtain ⟨hlen, hban⟩ := ih _ _ hrest
        refine ⟨by simp [hlen], ?_⟩
        intro i hi
        cases i with
        | zero =>
          obtain ⟨rel, sep, hrel, htxt⟩ := fileSection_some hfs
          rw [List.getD_cons_zero, List.getD_cons_zero, htxt]
          rw [show relPosix root f = rel from by rw [relPosix, hrel]; rfl]
          unfold pyStartsWith
          rw [String.append_assoc, strData_append]
          exact List.isPrefixOf_iff_prefix.mpr ⟨_, rfl⟩
        | succ n =>
          rw [List.getD_cons_succ, List.getD_cons_succ]
          exact hban n (by simp only [List.length_cons] at hi; omega)

theorem foldlM_counts (read : String → ReadResult) (root : String) :
    ∀ (fs : List String) (st res : LoopState),
      fs.foldlM (processFile read root) st = Except.ok res →
      res.processed + res.errorCount = st.processed + st.errorCount + fs.length := by
  intro fs
  induction fs with
  | nil =>
    intro st res h
    rw [List.foldlM_nil] at h
    injection h with h2
    subst h2
    simp
  | cons f fs ih =>
    intro st res h
    rw [List.foldlM_cons] at h
    rcases hpf : processFile read root st f with e | st1
    · rw [hpf] at h
      have h2 : (Except.error e : Except Unit LoopState) = Except.ok res := h
      exact absurd h2 (by simp)
    · rw [hpf] at h
      have h2 : fs.foldlM (processFile read root) st1 = Except.ok res := h
      have h3 := ih st1 res h2
      unfold processFile at hpf
      split at hpf
      · exact absurd hpf (by simp)
      · next txt nc isErr hfs =>
        injection hpf with h4
        rw [← h4] at h3
        cases isErr <;> simp only [List.length_cons] <;> simp at h3 <;> omega

theorem foldlM_of_sectionList (read : String → ReadResult) (root : String) :
    ∀ (fs : List String) (st : LoopState) (secs : List String),
      sectionList read root st.content fs = some secs →
      ∃ res, fs.foldlM (processFile read root) st = Except.ok res ∧
        res.out = st.out ++ String.join secs := by
  intro fs
  induction fs with
  | nil =>
    intro st secs h
    unfold sectionList at h
    injection h with h2
    subst h2
    refine ⟨st, by rw [List.foldlM_nil]; rfl, ?_⟩
    rw [show String.join [] = "" from rfl, String.append_empty]
  | cons f fs ih =>
    intro st secs h
    unfold sectionList at h
    split at h
    · exact absurd h (by simp)
    · next txt nc isErr hfs =>
      split at h
      · exact absurd h (by simp)
      · next rest hrest =>
        injection h with h2
        subst h2
        obtain ⟨res, hfold, hout⟩ := ih
          { processed := st.processed + (if isErr then 0 else 1),
            errorCount := st.errorCount + (if isErr then 1 else 0),
            content := nc, out := st.out ++ txt } rest hrest
        have hpf : processFile read root st f = Except.ok
            { processed := st.processed + (if isErr then 0 else 1),
              errorCount := st.errorCount + (if isErr then 1 else 0),
              content := nc, out := st.out ++ txt } := by
          unfold processFile
          rw [hfs]
        refine ⟨res, ?_, ?_⟩
        · rw [List.foldlM_cons, hpf]
          exact hfold
        · rw [hout]
          show st.out ++ txt ++ String.join rest = st.out ++ String.join (txt :: rest)
          rw [show String.join (txt :: rest) = txt ++ String.join rest from by
            show List.foldl (· ++ ·) "" (txt :: rest) = txt ++ String.join rest
            rw [List.foldl_cons, stringJoin_foldl, String.empty_append]]
          rw [String.append_assoc]

theorem compileFrom_ok (c : Compiler) (read : String → ReadResult) (ts : String)
    (files exts : List String) (res : LoopState)
    (hne : files.isEmpty = false)
    (hfold : (pySorted files).foldlM (processFile read c.rootDir)
      { processed := 0, errorCount := 0, content := none,
        out := headerText c exts ts } = Except.ok res) :
    compileFrom c read ts files exts =
      { success := true, doc := some (res.out ++ footerText res.processed res.errorCount),
        processedCount := res.processed, errorCount := res.errorCount } := by
  unfold compileFrom
  rw [if_neg (by simp [hne]), hfold]

/-- C10: whenever `compile` returns true, the document is exactly the
header, one section per selected file in sorted order (each section
starting with that file's banner), and the footer; and the processed
count plus the error count written in the footer equals the number of
selected files — every file is counted exactly once. -/
theorem success_every_file_one_section (c : Compiler) (walk : List Entry)
    (read : String → ReadResult) (ts : String) (secs : List String) (i : Nat)
    (hsucc : (compile c walk read ts).success = true)
    (hsecs : sectionList read c.rootDir none
      (pySorted (collectAndFilterFiles c walk).1) = some secs)
    (hi : i < secs.length) :
    (compile c walk read ts).doc =
      some (headerText c (collectAndFilterFiles c walk).2 ts ++ String.join secs ++
        footerText (compile c walk read ts).processedCount
          (compile c walk read ts).errorCount) ∧
    secs.length = (collectAndFilterFiles c walk).1.length ∧
    (compile c walk read ts).processedCount + (compile c walk read ts).errorCount =
      (collectAndFilterFiles c walk).1.length ∧
    pyStartsWith (secs.getD i "")
      (fileBanner (relPosix c.rootDir
        ((pySorted (collectAndFilterFiles c walk).1).getD i ""))) = true := by
  have hlenPS : (pySorted (collectAndFilterFiles c walk).1).length =
      (collectAndFilterFiles c walk).1.length :=
    (List.perm_insertionSort _ _).length_eq
  obtain ⟨hlen, hban⟩ := sectionList_spec read c.rootDir
    (pySorted (collectAndFilterFiles c walk).1) none secs hsecs
  obtain ⟨res, hfold, hout⟩ := foldlM_of_sectionList read c.rootDir
    (pySorted (collectAndFilterFiles c walk).1)
    { processed := 0, errorCount := 0, content := none,
      out := headerText c (collectAndFilterFiles c walk).2 ts } secs hsecs
  have hcounts := foldlM_counts read c.rootDir
    (pySorted (collectAndFilterFiles c walk).1) _ res hfold
  have hne : (collectAndFilterFiles c walk).1.isEmpty = false := by
    by_contra hcon
    rw [Bool.not_eq_false] at hcon
    unfold compile compileFrom at hsucc
    rw [if_pos hcon] at hsucc
    exact absurd hsucc (by simp)
  have hco : compile c walk read ts =
      { success := true, doc := some (res.out ++ footerText res.processed res.errorCount),
        processedCount := res.processed, errorCount := res.errorCount } := by
    unfold compile
    exact compileFrom_ok c read ts _ _ res hne hfold
  rw [hco]
  refine ⟨?_, ?_, ?_, ?_⟩
  · show some (res.out ++ footerText res.processed res.errorCount) = _
    rw [hout]
  · rw [hlen, hlenPS]
  · show res.processed + res.errorCount = (collectAndFilterFiles c walk).1.length
    rw [hcounts, hlenPS]
    simp
  · exact hban i (by omega)

set_option maxRecDepth 200000 in
/-- C10 witness: a run over two files read as `"x\n"` succeeds; its
document decomposes into header, the two sections in sorted order (each
starting with its file banner), and the footer, with processed + error
counts summing to the number of selected files. -/
theorem success_every_file_one_section_witness :
    (compile (mkCompiler "/r" none [] none none)
        [⟨"/r/b.py", true⟩, ⟨"/r/a.py", true⟩] (fun _ => ReadResult.utf8Ok "x\n") "T").doc =
      some (headerText (mkCompiler "/r" none [] none none)
        (collectAndFilterFiles (mkCompiler "/r" none [] none none)
          [⟨"/r/b.py", true⟩, ⟨"/r/a.py", true⟩]).2 "T" ++
        String.join [fileBanner "a.py" ++ "x\n", fileBanner "b.py" ++ "x\n"] ++
        footerText (compile (mkCompiler "/r" none [] none none)
          [⟨"/r/b.py", true⟩, ⟨"/r/a.py", true⟩]
            (fun _ => ReadResult.utf8Ok "x\n") "T").processedCount
          (compile (mkCompiler "/r" none [] none none)
            [⟨"/r/b.py", true⟩, ⟨"/r/a.py", true⟩]
            (fun _ => ReadResult.utf8Ok "x\n") "T").errorCount) ∧
    ([fileBanner "a.py" ++ "x\n", fileBanner "b.py" ++ "x\n"] : List String).length =
      (collectAndFilterFiles (mkCompiler "/r" none [] none none)
        [⟨"/r/b.py", true⟩, ⟨"/r/a.py", true⟩]).1.length ∧
    (compile (mkCompiler "/r" none [] none none)
        [⟨"/r/b.py", true⟩, ⟨"/r/a.py", true⟩]
        (fun _ => ReadResult.utf8Ok "x\n") "T").processedCount +
      (compile (mkCompiler "/r" none [] none none)
        [⟨"/r/b.py", true⟩, ⟨"/r/a.py", true⟩]
        (fun _ => ReadResult.utf8Ok "x\n") "T").errorCount =
      (collectAndFilterFiles (mkCompiler "/r" none [] none none)
        [⟨"/r/b.py", true⟩, ⟨"/r/a.py", true⟩]).1.length ∧
    pyStartsWith (([fileBanner "a.py" ++ "x\n", fileBanner "b.py" ++ "x\n"] :
        List String).getD 0 "")
      (fileBanner (relPosix (mkCompiler "/r" none [] none none).rootDir
        ((pySorted (collectAndFilterFiles (mkCompiler "/r" none [] none none)
          [⟨"/r/b.py", true⟩, ⟨"/r/a.py", true⟩]).1).getD 0 ""))) = true :=
  success_every_file_one_section (mkCompiler "/r" none [] none none)
    [⟨"/r/b.py", true⟩, ⟨"/r/a.py", true⟩] (fun _ => ReadResult.utf8Ok "x\n") "T"
    [fileBanner "a.py" ++ "x\n", fileBanner "b.py" ++ "x\n"] 0
    (by decide) (by decide) (by decide)
